import Mathlib

/-
Verification of the Lrgen LR(1) table generator (src/main.rs) against its
natural-language specification.

Modelling conventions, stated once:

* Rust `BTreeSet<Item>` is modelled as a duplicate-free `List Item`.
  Insertion (`BTreeSet::insert`) is modelled by `insertItem`, which appends
  the element when absent and reports whether it was new.  Where the source
  iterates a `BTreeSet` (which iterates in ascending `Ord` order), the model
  iterates `sortItems s`, using `Item.cmp`, the lexicographic comparison on
  the fields (symbol, derivation, position, lookahead, rule) in declaration
  order, exactly as derived by Rust for `struct Item`.  Rust `&str`
  comparison is byte-lexicographic on UTF-8, which agrees with the
  scalar-value comparison `cmpStr` below on every string.
* Rust `HashMap` keyed by strings is modelled as an association list.  Rust
  iterates a `HashMap` in an order randomized per process (`RandomState`);
  the model makes that order explicit: `RawGrammarData.rules` is a list, so
  the order the source would see is a parameter of the model, and maps built
  during the run are iterated either in insertion order or in sorted key
  order (noted at each site).  No claim settled here depends on the choice
  except where the choice itself is the subject (determinism).
* The `HashMap<BTreeSet<Item>, usize>` of states is keyed by set equality of
  item sets; lookup is modelled by `statesGet`, which compares by mutual
  membership (`itemSetEq`), exactly the equality `BTreeSet` provides.
* Rust `i8` counters in `get_symbol_type` are modelled as `Int` (no grammar
  symbol in scope approaches the 127-letter overflow point).
* Panics (`panic!` calls in the source) are modelled as `Except.error`; the
  unbounded `while` loops are modelled with explicit fuel, returning `none`
  on exhaustion, so every definition is executable.
* The source declares `yydefact`, `yybase` and `yygoto` and never writes or
  prints them; the model carries `yybase` as the constant empty list it is
  in the source, because one claim is about it.
-/

namespace Lrgen

/-- `SymbolType` from the source (`Terminal`, `NonTerminal`, `Error`). -/
inductive SymbolType where
  | Terminal
  | NonTerminal
  | Error
deriving DecidableEq, Repr

/-- Letter counting of `get_symbol_type`: the loop skips underscores, counts
uppercase and lowercase characters.  The source counts with `i8`; the model
counts with `Int` (see header). -/
def countCases : List Char → Int × Int
  | [] => (0, 0)
  | ch :: rest =>
    let p := countCases rest
    if ch = '_' then p
    else if ch.isUpper then (p.1 + 1, p.2)
    else if ch.isLower then (p.1, p.2 + 1)
    else p

/-- `get_symbol_type` (src/main.rs lines 13-35): classify a symbol name by
case.  `diff = uppercase - lowercase`; `diff == uppercase` (no lowercase)
gives `NonTerminal`, `diff == -lowercase` (no uppercase) gives `Terminal`,
anything else is `Error`. -/
def get_symbol_type (symbol : String) : SymbolType :=
  let uppercase := (countCases symbol.data).1
  let lowercase := (countCases symbol.data).2
  let diff := uppercase - lowercase
  if diff = uppercase then SymbolType.NonTerminal
  else if diff = -lowercase then SymbolType.Terminal
  else SymbolType.Error

/-- `Symbols` (src/main.rs lines 37-41): the two interned name sets. -/
structure Symbols where
  terminals : List String
  non_terminals : List String
deriving DecidableEq, Repr

/-- `Symbols::add_symbol` (lines 63-85).  The source panics on a terminal in
LHS point, on a `SymbolType::Error` name, and on a name in both sets; panics
are modelled as `Except.error`. -/
def Symbols.add_symbol (s : Symbols) (symbol : String) (non_terminal_expected : Bool) :
    Except String Symbols :=
  match s.terminals.contains symbol, s.non_terminals.contains symbol with
  | false, false =>
    match get_symbol_type symbol with
    | SymbolType.Terminal =>
      if non_terminal_expected then Except.error "LHSs must be non terminal"
      else Except.ok { s with terminals := s.terminals ++ [symbol] }
    | SymbolType.NonTerminal =>
      Except.ok { s with non_terminals := s.non_terminals ++ [symbol] }
    | SymbolType.Error => Except.error "bad symbol in the grammar"
  | true, true => Except.error "terminal and non terminal at the same time"
  | _, _ => Except.ok s

/-- `RawGrammarData` (lines 96-100).  The source holds `rules` in a
`HashMap<String, Vec<Vec<String>>>`; the model carries the iteration order
the Rust run would observe as an explicit list (see header). -/
structure RawGrammarData where
  start : String
  rules : List (String × List (List String))
deriving DecidableEq, Repr

/-- `Symbols::from_raw_grammar_data` (lines 44-60): intern every LHS with
`non_terminal_expected = true`, then every RHS symbol with `false`. -/
def Symbols.from_raw_grammar_data (raw : RawGrammarData) : Except String Symbols := do
  let mut symbols : Symbols := { terminals := [], non_terminals := [] }
  for entry in raw.rules do
    symbols ← symbols.add_symbol entry.1 true
    for derivation in entry.2 do
      for s in derivation do
        symbols ← symbols.add_symbol s false
  return symbols

/-- `Symbols::get_symbol` (lines 87-93): return the interned name; panic
(modelled as error) unless it is in exactly one of the two sets. -/
def Symbols.get_symbol (s : Symbols) (symbol : String) : Except String String :=
  match s.terminals.contains symbol, s.non_terminals.contains symbol with
  | true, false => Except.ok symbol
  | false, true => Except.ok symbol
  | _, _ => Except.error "something went wrong adding those symbols"

/-- `Grammar` (lines 102-107): productions grouped by LHS; each production
carries its 1-based id and its RHS. -/
structure Grammar where
  start : String
  rules : List (String × List (Nat × List String))
  number_of_rules : Nat
deriving DecidableEq, Repr

/-- Helper for `HashMap::get_mut`-or-`insert` on the grouped rules: append
the production to an existing LHS entry, or add a new entry at the end. -/
def assocAppendRule (m : List (String × List (Nat × List String))) (k : String)
    (v : Nat × List String) : List (String × List (Nat × List String)) :=
  match m with
  | [] => [(k, [v])]
  | (k', vs) :: rest =>
    if k' = k then (k', vs ++ [v]) :: rest else (k', vs) :: assocAppendRule rest k v

/-- `Grammar::from_raw_grammar_data` (lines 110-140): flatten the raw rules
(in the observed map order), number them from 1 in flattening order, and
group them by LHS. -/
def Grammar.from_raw_grammar_data (raw : RawGrammarData) (symbols : Symbols) :
    Except String Grammar := do
  let mut flatten_rules : List (String × List String) := []
  for entry in raw.rules do
    let symbol_ref ← symbols.get_symbol entry.1
    for derivation in entry.2 do
      let mut derivation_refs : List String := []
      for s in derivation do
        let r ← symbols.get_symbol s
        derivation_refs := derivation_refs ++ [r]
      flatten_rules := flatten_rules ++ [(symbol_ref, derivation_refs)]
  let number_of_rules := flatten_rules.length
  let mut rules : List (String × List (Nat × List String)) := []
  let mut index : Nat := 0
  for lr in flatten_rules do
    rules := assocAppendRule rules lr.1 (index + 1, lr.2)
    index := index + 1
  return { start := raw.start, rules := rules, number_of_rules := number_of_rules }

/-- `Item` (lines 168-175): fields in source declaration order. -/
structure Item where
  symbol : String
  derivation : List String
  position : Nat
  lookahead : String
  rule : Nat
deriving DecidableEq, Repr

/-- `ExtensionData` (lines 143-146). -/
structure ExtensionData where
  symbol : String
  lookahead : String
deriving DecidableEq, Repr

/-- `Item::advanced` (lines 188-192). -/
def Item.advanced (i : Item) : Item := { i with position := i.position + 1 }

/-- `Item::extended_lookahead` (lines 194-216): if the symbol after the dot
is a non-terminal, collect the terminals among the symbols after it, append
the item lookahead, and take the FIRST element of that list as the single
new lookahead.  (Non-terminals in the tail are skipped outright; there is no
FIRST-set or nullability computation in the source.) -/
def Item.extended_lookahead (i : Item) (symbols : Symbols) : Option ExtensionData :=
  match i.derivation[i.position]? with
  | none => none
  | some next_symbol =>
    if symbols.non_terminals.contains next_symbol then
      let terminal_symbols :=
        (i.derivation.drop (i.position + 1)).filter fun s => symbols.terminals.contains s
      let lookahead :=
        match terminal_symbols with
        | [] => i.lookahead
        | t :: _ => t
      some { symbol := next_symbol, lookahead := lookahead }
    else none

/-- `BTreeSet::insert`: add when absent, report whether the element was new. -/
def insertItem (x : Item) (s : List Item) : List Item × Bool :=
  if x ∈ s then (s, false) else (s ++ [x], true)

/-- Association-list lookup on the grouped grammar rules (`HashMap::get`). -/
def assocGetRules (m : List (String × List (Nat × List String))) (k : String) :
    Option (List (Nat × List String)) :=
  match m with
  | [] => none
  | (k', vs) :: rest => if k' = k then some vs else assocGetRules rest k

/-- The items `close_items` would create for one worklist item (lines
255-262): one item per production of the extension symbol, dot at 0, with
the single extension lookahead. -/
def childItems (symbols : Symbols) (grammar : Grammar) (i : Item) : List Item :=
  match i.extended_lookahead symbols with
  | none => []
  | some ext =>
    match assocGetRules grammar.rules ext.symbol with
    | none => []
    | some rules =>
      rules.map fun pr =>
        { symbol := ext.symbol, derivation := pr.2, position := 0,
          lookahead := ext.lookahead, rule := pr.1 }

/-- One insertion step of the `close_items` inner loop (lines 257-263):
insert the child into the item set and, when it is new, record it for the
worklist. -/
def closeFold (acc : List Item × List Item) (c : Item) : List Item × List Item :=
  let r := insertItem c acc.1
  if r.2 then (r.1, acc.2 ++ [c]) else (r.1, acc.2)

/-- Expansion of one popped worklist item (lines 255-264): fold the child
items into the set, returning the grown set and the newly inserted items in
creation order. -/
def closeStep (symbols : Symbols) (grammar : Grammar) (item : Item)
    (items : List Item) : List Item × List Item :=
  (childItems symbols grammar item).foldl closeFold (items, [])

/-- The `while let Some(item) = to_close.pop()` loop of `close_items` (lines
254-266).  The worklist is a stack; the head of `toClose` is the next pop
(Rust pops from the back of the `Vec`, so freshly pushed items - reversed,
since they are pushed in creation order - go in front).  Fuel bounds the
number of pops; `none` means fuel ran out. -/
def closeLoop (symbols : Symbols) (grammar : Grammar) :
    Nat → List Item → List Item → Option (List Item)
  | _, items, [] => some items
  | 0, _, _ :: _ => none
  | fuel + 1, items, item :: rest =>
    let r := closeStep symbols grammar item items
    closeLoop symbols grammar fuel r.1 (r.2.reverse ++ rest)

/-- `close_items` (lines 251-269): seed the worklist with the whole input
set and run the loop to its fixed point. -/
def close_items (fuel : Nat) (items : List Item) (symbols : Symbols)
    (grammar : Grammar) : Option (List Item) :=
  closeLoop symbols grammar fuel items items.reverse

/-- `Action` (lines 148-155). -/
inductive Action where
  | Shift (s : Nat)
  | Reduce (r : Nat)
  | Goto (g : Nat)
  | Accept
deriving DecidableEq, Repr

/-- Byte-lexicographic character comparison (Rust `&str` Ord; UTF-8 byte
order agrees with scalar-value order). -/
def cmpCharList : List Char → List Char → Ordering
  | [], [] => Ordering.eq
  | [], _ :: _ => Ordering.lt
  | _ :: _, [] => Ordering.gt
  | a :: as, b :: bs =>
    if a.toNat < b.toNat then Ordering.lt
    else if b.toNat < a.toNat then Ordering.gt
    else cmpCharList as bs

/-- Rust `&str` comparison. -/
def cmpStr (a b : String) : Ordering := cmpCharList a.data b.data

/-- Rust `Vec<&str>` comparison (lexicographic, shorter prefix first). -/
def cmpStrList : List String → List String → Ordering
  | [], [] => Ordering.eq
  | [], _ :: _ => Ordering.lt
  | _ :: _, [] => Ordering.gt
  | a :: as, b :: bs =>
    match cmpStr a b with
    | Ordering.eq => cmpStrList as bs
    | o => o

/-- Rust `usize` comparison. -/
def cmpNat (a b : Nat) : Ordering :=
  if a < b then Ordering.lt else if b < a then Ordering.gt else Ordering.eq

/-- The `Ord` Rust derives for `Item`: lexicographic on the fields in
declaration order. -/
def Item.cmp (x y : Item) : Ordering :=
  match cmpStr x.symbol y.symbol with
  | Ordering.eq =>
    match cmpStrList x.derivation y.derivation with
    | Ordering.eq =>
      match cmpNat x.position y.position with
      | Ordering.eq =>
        match cmpStr x.lookahead y.lookahead with
        | Ordering.eq => cmpNat x.rule y.rule
        | o => o
      | o => o
    | o => o
  | o => o

/-- `x` precedes-or-equals `y` in the derived `Item` order. -/
def Item.leb (x y : Item) : Bool :=
  match Item.cmp x y with
  | Ordering.gt => false
  | _ => true

/-- Insertion into a sorted item list. -/
def insSortedItem (x : Item) : List Item → List Item
  | [] => [x]
  | y :: ys => if Item.leb x y then x :: y :: ys else y :: insSortedItem x ys

/-- Sort an item list into the ascending order a `BTreeSet<Item>` iterates
in.  Used wherever the source iterates a `BTreeSet`. -/
def sortItems (s : List Item) : List Item := s.foldr insSortedItem []

/-- Set equality of item sets - the equality `BTreeSet<Item>` keys carry. -/
def itemSetEq (a b : List Item) : Bool :=
  (a.all fun x => decide (x ∈ b)) && (b.all fun x => decide (x ∈ a))

/-- Lookup in the `HashMap<BTreeSet<Item>, usize>` of registered states,
comparing keys by set equality. -/
def statesGet (states : List (List Item × Nat)) (s : List Item) : Option Nat :=
  match states with
  | [] => none
  | (k, v) :: rest => if itemSetEq k s then some v else statesGet rest s

/-- `HashMap::insert` on the per-state action map: overwrite the value at an
existing key, otherwise append the pair. -/
def mapInsert (m : List (String × Action)) (k : String) (v : Action) :
    List (String × Action) :=
  match m with
  | [] => [(k, v)]
  | (k', v') :: rest =>
    if k' = k then (k', v) :: rest else (k', v') :: mapInsert rest k v

/-- Lookup in a per-state action map. -/
def mapGet (m : List (String × Action)) (k : String) : Option Action :=
  match m with
  | [] => none
  | (k', v') :: rest => if k' = k then some v' else mapGet rest k

/-- Grouping of advanced items by the symbol before the new dot position
(the `new_states` map, lines 347-352): insert the item into the group of its
key set, creating the group on first sight. -/
def groupInsert (m : List (String × List Item)) (k : String) (v : Item) :
    List (String × List Item) :=
  match m with
  | [] => [(k, [v])]
  | (k', vs) :: rest =>
    if k' = k then (k', (insertItem v vs).1) :: rest
    else (k', vs) :: groupInsert rest k v

/-- String order used to fix an iteration order for the `new_states` map
(Rust iterates that `HashMap` in an unspecified, per-process-random order;
the model iterates keys ascending - see header). -/
def strLeb (a b : String) : Bool :=
  match cmpStr a b with
  | Ordering.gt => false
  | _ => true

/-- Insertion into a key-sorted successor list. -/
def insSortedGroup (x : String × List Item) :
    List (String × List Item) → List (String × List Item)
  | [] => [x]
  | y :: ys => if strLeb x.1 y.1 then x :: y :: ys else y :: insSortedGroup x ys

/-- Sort the successor groups by key. -/
def sortGroups (m : List (String × List Item)) : List (String × List Item) :=
  m.foldr insSortedGroup []

/-- The mutable driver state of the `while let Some(state) =
states_stack.pop_front()` loop in `main` (lines 317-328, 337-405). -/
structure BuildState where
  states : List (List Item × Nat)
  queue : List (List Item)
  actions : List (List (String × Action))
  yytable : List Int
  yycheck : List Nat
deriving DecidableEq, Repr

/-- One iteration of the state-builder loop in `main` (lines 337-405):
process the dequeued item set - group advanced items by transition symbol,
emit accept/reduce actions and `yytable`/`yycheck` entries for completed
items, register the set if new, close and number every successor, and emit
its shift/goto action and table entries. -/
def processState (fuel : Nat) (symbols : Symbols) (grammar : Grammar)
    (bs : BuildState) (state : List Item) : Option BuildState := do
  let current_state_index := bs.states.length
  -- `start_item` with `position = derivation.len()` (line 354): the
  -- completed synthesized start production.
  let start_item_done : Item :=
    { symbol := "\x27", derivation := [grammar.start], position := 1,
      lookahead := "$", rule := 0 }
  let mut new_states : List (String × List Item) := []
  let mut new_actions : List (String × Action) := []
  let mut yytable := bs.yytable
  let mut yycheck := bs.yycheck
  for item in sortItems state do
    match item.derivation[item.position]? with
    | some next_symbol =>
      new_states := groupInsert new_states next_symbol item.advanced
    | none =>
      -- Completed item (lines 353-368).  NOTE the source tests whether the
      -- STATE contains the completed start item, not whether this item is
      -- the completed start item.
      if start_item_done ∈ state ∧ item.lookahead = "$" then
        new_actions := mapInsert new_actions item.lookahead Action.Accept
        yytable := yytable ++ [0]
        yycheck := yycheck ++ [current_state_index]
      else
        new_actions := mapInsert new_actions item.lookahead (Action.Reduce item.rule)
        -- Lines 361-366: the reduce entry is appended only when both arrays
        -- are non-empty and the previous slot is not the same (entry, state).
        match yytable.getLast?, yycheck.getLast? with
        | some last_yytable, some last_yycheck =>
          if last_yytable ≠ -(item.rule : Int) ∨ last_yycheck ≠ current_state_index then
            yytable := yytable ++ [-(item.rule : Int)]
            yycheck := yycheck ++ [current_state_index]
        | _, _ => pure ()
  -- Lines 372-375: register the processed set if it is not yet a key.
  let mut states := bs.states
  if (statesGet states state).isNone then
    states := states ++ [(state, current_state_index)]
  -- Lines 377-402: close each successor, find or predict its index, emit
  -- its action and its `yytable`/`yycheck` entries.
  let mut queue := bs.queue
  for entry in sortGroups new_states do
    let closed ← close_items fuel entry.2 symbols grammar
    let mut index : Nat := 0
    match statesGet states closed with
    | some j => index := j
    | none =>
      queue := queue ++ [closed]
      index := states.length + queue.length - 1
    if symbols.non_terminals.contains entry.1 then
      new_actions := mapInsert new_actions entry.1 (Action.Goto index)
    else
      new_actions := mapInsert new_actions entry.1 (Action.Shift index)
    yytable := yytable ++ [(index : Int)]
    yycheck := yycheck ++ [current_state_index]
  return { states := states, queue := queue, actions := bs.actions ++ [new_actions],
           yytable := yytable, yycheck := yycheck }

/-- The worklist loop of `main`, fueled. -/
def buildLoop (closeFuel : Nat) (symbols : Symbols) (grammar : Grammar) :
    Nat → BuildState → Option BuildState
  | 0, bs => match bs.queue with | [] => some bs | _ :: _ => none
  | steps + 1, bs =>
    match bs.queue with
    | [] => some bs
    | state :: rest =>
      match processState closeFuel symbols grammar
          { bs with queue := rest } state with
      | some bs' => buildLoop closeFuel symbols grammar steps bs'
      | none => none

/-- The tables the generator holds at the end of `main`.  `yybase` is
declared in the source (line 325) and never assigned or printed; it is the
empty vector in every run. -/
structure GenResult where
  states : List (List Item × Nat)
  actions : List (List (String × Action))
  yyr1 : List Nat
  yyr2 : List Nat
  yybase : List Nat
  yytable : List Int
  yycheck : List Nat
deriving DecidableEq, Repr

/-- The whole pipeline of `main` on an abstract grammar (lines 308-405):
intern symbols, build the grammar, emit `yyr1`/`yyr2` (lines 330-335, one
entry per production in map order, recording the POSITION of the LHS in that
order and the RHS length), close the start item into state 0, and run the
state-builder loop. -/
def run (fuel : Nat) (raw : RawGrammarData) : Except String GenResult := do
  let symbols ← Symbols.from_raw_grammar_data raw
  let grammar ← Grammar.from_raw_grammar_data raw symbols
  let first_derivation := [grammar.start]
  let start_item : Item :=
    { symbol := "\x27", derivation := first_derivation, position := 0,
      lookahead := "$", rule := 0 }
  let first_state ←
    match close_items fuel [start_item] symbols grammar with
    | some s => pure s
    | none => Except.error "closure fuel exhausted"
  let mut yyr1 : List Nat := []
  let mut yyr2 : List Nat := []
  let mut lhs_number : Nat := 0
  for entry in grammar.rules do
    for pr in entry.2 do
      yyr1 := yyr1 ++ [lhs_number]
      yyr2 := yyr2 ++ [pr.2.length]
    lhs_number := lhs_number + 1
  let init : BuildState :=
    { states := [], queue := [first_state], actions := [], yytable := [], yycheck := [] }
  let final ←
    match buildLoop fuel symbols grammar fuel init with
    | some b => pure b
    | none => Except.error "builder fuel exhausted"
  return { states := final.states, actions := final.actions, yyr1 := yyr1,
           yyr2 := yyr2, yybase := [], yytable := final.yytable,
           yycheck := final.yycheck }

/-- State 0 as `main` computes it (lines 313-315): the closure of the single
start item over the loaded symbols and grammar. -/
def closure0 (fuel : Nat) (raw : RawGrammarData) : Option (List Item) :=
  match Symbols.from_raw_grammar_data raw with
  | Except.error _ => none
  | Except.ok symbols =>
    match Grammar.from_raw_grammar_data raw symbols with
    | Except.error _ => none
    | Except.ok grammar =>
      close_items fuel [⟨"\x27", [grammar.start], 0, "$", 0⟩] symbols grammar

/-- Grammar S to A B, A to a, B to b: in state 0 the item for A sits before
a non-terminal tail, so its spec lookahead set is FIRST(B $) = b alone. -/
def g1 : RawGrammarData := ⟨"S", [("S", [["A", "B"]]), ("A", [["a"]]), ("B", [["b"]])]⟩

/-- The closure the model computes for the start item of `g1`. -/
def c1J : List Item :=
  [⟨"\x27", ["S"], 0, "$", 0⟩, ⟨"S", ["A", "B"], 0, "$", 1⟩, ⟨"A", ["a"], 0, "$", 2⟩]

/-- Reduce/reduce grammar (spec scenario 4): S to A or B, A to a, B to a. -/
def g2 : RawGrammarData := ⟨"S", [("S", [["A"], ["B"]]), ("A", [["a"]]), ("B", [["a"]])]⟩

/-- Grammar whose accept state also holds a completed epsilon item:
S to S A or c, A to epsilon. -/
def g3 : RawGrammarData := ⟨"S", [("S", [["S", "A"], ["c"]]), ("A", [[]])]⟩

/-- Rules S to A b and A to a, presented in one map order. -/
def g4a : RawGrammarData := ⟨"S", [("S", [["A", "b"]]), ("A", [["a"]])]⟩

/-- The same rule set as `g4a`, presented in the other map order - the two
orders model two runs of the source on one byte-identical input, since Rust
iterates the rule map in a per-process-random order. -/
def g4b : RawGrammarData := ⟨"S", [("A", [["a"]]), ("S", [["A", "b"]])]⟩

/-- Grammar in which two in-flight states share the fresh successor set for
the terminal z: S to x A or y A, A to z. -/
def g5 : RawGrammarData := ⟨"S", [("S", [["x", "A"], ["y", "A"]]), ("A", [["z"]])]⟩

/-- The trivial grammar S to a (spec scenario 1). -/
def gTrivial : RawGrammarData := ⟨"S", [("S", [["a"]])]⟩

/-- Single-production grammar S to a b, so the production ids are fixed
regardless of map order. -/
def g7 : RawGrammarData := ⟨"S", [("S", [["a", "b"]])]⟩

/-- Grammar whose RHS non-terminal A never occurs as a LHS. -/
def g8 : RawGrammarData := ⟨"S", [("S", [["A"]])]⟩

/-- An item set is closed when it already contains every item that
`close_items` would create from any of its members. -/
def IsClosedItems (symbols : Symbols) (grammar : Grammar) (J : List Item) : Prop :=
  ∀ i ∈ J, ∀ c ∈ childItems symbols grammar i, c ∈ J

/-- Loop invariant of `close_items`: every member of the item set is still
on the worklist or already has all its child items in the set. -/
def CloseInv (symbols : Symbols) (grammar : Grammar) (items toClose : List Item) : Prop :=
  ∀ i ∈ items, i ∈ toClose ∨ ∀ c ∈ childItems symbols grammar i, c ∈ items

/-- Symbols of the loaded trivial grammar `gTrivial`. -/
def wSymbols : Symbols := { terminals := ["a"], non_terminals := ["S"] }

/-- The loaded trivial grammar `gTrivial`. -/
def wGrammar : Grammar :=
  { start := "S", rules := [("S", [(1, ["a"])])], number_of_rules := 1 }

/-- The singleton start item set over `wGrammar`. -/
def wI : List Item := [⟨"\x27", ["S"], 0, "$", 0⟩]

/-- The closure of `wI` over `wGrammar`. -/
def wJ : List Item :=
  [⟨"\x27", ["S"], 0, "$", 0⟩, ⟨"S", ["a"], 0, "$", 1⟩]

theorem closeFold_of_mem {c : Item} {items pushed : List Item} (h : c ∈ items) :
    closeFold (items, pushed) c = (items, pushed) := by
  simp [closeFold, insertItem, h]

theorem foldl_closeFold_of_mem {l : List Item} {items pushed : List Item}
    (h : ∀ c ∈ l, c ∈ items) : l.foldl closeFold (items, pushed) = (items, pushed) := by
  induction l generalizing pushed with
  | nil => rfl
  | cons c l ih =>
    rw [List.foldl_cons, closeFold_of_mem (h c (by simp))]
    exact ih fun x hx => h x (by simp [hx])

theorem foldl_closeFold_prop (l : List Item) : ∀ items pushed : List Item,
    (∀ x ∈ items, x ∈ (l.foldl closeFold (items, pushed)).1) ∧
    (∀ c ∈ l, c ∈ (l.foldl closeFold (items, pushed)).1) ∧
    (∀ n ∈ (l.foldl closeFold (items, pushed)).1,
      n ∈ items ∨ n ∈ (l.foldl closeFold (items, pushed)).2) ∧
    (∀ q ∈ pushed, q ∈ (l.foldl closeFold (items, pushed)).2) := by
  induction l with
  | nil =>
    intro items pushed
    exact ⟨fun x hx => hx, by simp, fun n hn => Or.inl hn, fun q hq => hq⟩
  | cons c l ih =>
    intro items pushed
    rw [List.foldl_cons]
    by_cases hc : c ∈ items
    · rw [closeFold_of_mem hc]
      obtain ⟨h1, h2, h3, h4⟩ := ih items pushed
      refine ⟨h1, ?_, h3, h4⟩
      intro c' hc'
      rcases List.mem_cons.1 hc' with h | h
      · subst h; exact h1 c' hc
      · exact h2 c' h
    · have hfold : closeFold (items, pushed) c = (items ++ [c], pushed ++ [c]) := by
        simp [closeFold, insertItem, hc]
      rw [hfold]
      obtain ⟨h1, h2, h3, h4⟩ := ih (items ++ [c]) (pushed ++ [c])
      refine ⟨?_, ?_, ?_, ?_⟩
      · intro x hx; exact h1 x (by simp [hx])
      · intro c' hc'
        rcases List.mem_cons.1 hc' with h | h
        · subst h; exact h1 c' (by simp)
        · exact h2 c' h
      · intro n hn
        rcases h3 n hn with h | h
        · rcases List.mem_append.1 h with h' | h'
          · exact Or.inl h'
          · simp only [List.mem_singleton] at h'
            subst h'
            exact Or.inr (h4 n (by simp))
        · exact Or.inr h
      · intro q hq; exact h4 q (by simp [hq])

theorem closeLoop_closed (symbols : Symbols) (grammar : Grammar) :
    ∀ (fuel : Nat) (items tc J : List Item),
    CloseInv symbols grammar items tc →
    closeLoop symbols grammar fuel items tc = some J →
    IsClosedItems symbols grammar J := by
  intro fuel
  induction fuel with
  | zero =>
    intro items tc J hinv h
    cases tc with
    | nil =>
      simp only [closeLoop, Option.some.injEq] at h
      subst h
      intro i hi c hc
      rcases hinv i hi with h' | h'
      · exact absurd h' (List.not_mem_nil i)
      · exact h' c hc
    | cons x rest => exact absurd h (by simp [closeLoop])
  | succ fuel ih =>
    intro items tc J hinv h
    cases tc with
    | nil =>
      simp only [closeLoop, Option.some.injEq] at h
      subst h
      intro i hi c hc
      rcases hinv i hi with h' | h'
      · exact absurd h' (List.not_mem_nil i)
      · exact h' c hc
    | cons x rest =>
      have hstep : closeLoop symbols grammar (fuel + 1) items (x :: rest) =
          closeLoop symbols grammar fuel (closeStep symbols grammar x items).1
            ((closeStep symbols grammar x items).2.reverse ++ rest) := rfl
      rw [hstep] at h
      have props := foldl_closeFold_prop (childItems symbols grammar x) items []
      have hcs : (childItems symbols grammar x).foldl closeFold (items, []) =
          closeStep symbols grammar x items := rfl
      rw [hcs] at props
      have hinv' : CloseInv symbols grammar (closeStep symbols grammar x items).1
          ((closeStep symbols grammar x items).2.reverse ++ rest) := by
        intro i hi
        rcases props.2.2.1 i hi with hmem | hpush
        · rcases hinv i hmem with htc | hclosed
          · rcases List.mem_cons.1 htc with h' | h'
            · subst h'
              exact Or.inr fun c hc => props.2.1 c hc
            · exact Or.inl (by simp [h'])
          · exact Or.inr fun c hc => props.1 c (hclosed c hc)
        · exact Or.inl (by simp [hpush])
      exact ih _ _ _ hinv' h

theorem closeLoop_fixpoint (symbols : Symbols) (grammar : Grammar) (J : List Item)
    (hclosed : IsClosedItems symbols grammar J) :
    ∀ (tc : List Item) (fuel : Nat), (∀ x ∈ tc, x ∈ J) → tc.length ≤ fuel →
    closeLoop symbols grammar fuel J tc = some J := by
  intro tc
  induction tc with
  | nil =>
    intro fuel _ _
    cases fuel <;> rfl
  | cons x rest ih =>
    intro fuel hsub hlen
    cases fuel with
    | zero => simp at hlen
    | succ fuel =>
      have hx : x ∈ J := hsub x (by simp)
      have hstep : closeStep symbols grammar x J = (J, []) :=
        foldl_closeFold_of_mem fun c hc => hclosed x hx c hc
      have hone : closeLoop symbols grammar (fuel + 1) J (x :: rest) =
          closeLoop symbols grammar fuel (closeStep symbols grammar x J).1
            ((closeStep symbols grammar x J).2.reverse ++ rest) := rfl
      rw [hone, hstep]
      simp only [List.reverse_nil, List.nil_append]
      refine ih fuel (fun y hy => hsub y (by simp [hy])) ?_
      exact Nat.le_of_succ_le_succ (by simpa using hlen)

/-- Claim C1 (evaluation of the code at the failing input): on the grammar
S to A B, A to a, B to b and the item [S to dot A B, $], the spec requires
one new A item per lookahead in FIRST(B $) = b alone, so [A to dot a, b].
`Item.extended_lookahead` instead scans the tail for terminals only
(skipping the non-terminal B with no nullability computation), finds none,
and falls back to the single item lookahead $, so the closure of the start
item contains [A to dot a, $] and not [A to dot a, b]. -/
theorem c1_closure_uses_single_lookahead :
    closure0 50 g1 = some c1J ∧
    Item.mk "A" ["a"] 0 "$" 2 ∈ c1J ∧ Item.mk "A" ["a"] 0 "b" 2 ∉ c1J := by
  decide

/-- Claim C2 (evaluation of the code at the failing input): on the grammar
S to A or B, A to a (production 3), B to a (production 4), the state
registered with index 4 holds the two completed items for productions 3 and
4 on lookahead $, a reduce/reduce clash.  The final action row of that state
is the single entry reduce 4: the second `HashMap::insert` silently replaced
reduce 3, the surviving production is the higher-numbered one, and the
program has no conflict report anywhere in its output. -/
theorem c2_reduce_reduce_silent_overwrite :
    (run 100 g2).toOption.map (fun r =>
      (statesGet r.states [⟨"A", ["a"], 1, "$", 3⟩, ⟨"B", ["a"], 1, "$", 4⟩],
       r.actions.getD 4 [])) =
    some (some 4, [("$", Action.Reduce 4)]) := by
  decide

/-- Claim C3 (evaluation of the code at the failing input): on the grammar
S to S A or c, A to epsilon, state 1 holds the completed synthesized start
item, the item [S to S dot A, $], and the completed item [A to dot, $] of
production 3.  Because the source tests whether the STATE contains the
completed start item rather than whether the current item is it, the cell
for $ is Accept, where the claim requires reduce by production 3 for the
item [A to dot, $]. -/
theorem c3_accept_granted_to_non_start_item :
    (run 100 g3).toOption.map (fun r =>
      (statesGet r.states [⟨"\x27", ["S"], 1, "$", 0⟩, ⟨"S", ["S", "A"], 1, "$", 1⟩,
                           ⟨"A", [], 0, "$", 3⟩],
       mapGet (r.actions.getD 1 []) "$")) =
    some (some 1, some Action.Accept) := by
  decide

/-- Claim C4 (evaluation of the code at the failing input): `g4a` and `g4b`
are the same rule set {S to A b, A to a} in the two orders the per-process
randomized `HashMap` iteration of the source can present it; the two runs
assign different production ids (S to A b gets 1 in one order, 2 in the
other) and emit different yyr2 and yytable arrays, so byte-identical input
does not yield byte-identical tables. -/
theorem c4_tables_depend_on_map_iteration_order :
    (run 100 g4a).toOption.map (fun r => (r.yyr2, r.yytable)) =
      some ([2, 1], [1, 2, 3, 4, 0, -2, -1]) ∧
    (run 100 g4b).toOption.map (fun r => (r.yyr2, r.yytable)) =
      some ([1, 2], [1, 2, 3, 4, 0, -1, -2]) ∧
    (run 100 g4a).toOption.map (fun r => (r.yyr2, r.yytable)) ≠
      (run 100 g4b).toOption.map (fun r => (r.yyr2, r.yytable)) := by
  decide

/-- Claim C5 (evaluation of the code at the failing input): on the grammar
S to x A or y A, A to z, the states for [S to x dot A, $] and
[S to y dot A, $] both reach the fresh successor set for z before it is
popped, so it is pushed onto the worklist twice.  The transition recorded in
the action row of state 3 is shift 7, but the set [A to z dot, $] is finally
registered under index 5; the duplicate is also processed again, leaving 8
action rows for 7 registered states. -/
theorem c5_recorded_index_differs_from_registered :
    (run 200 g5).toOption.map (fun r =>
      (mapGet (r.actions.getD 3 []) "z",
       statesGet r.states [⟨"A", ["z"], 1, "$", 3⟩],
       r.actions.length, r.states.length)) =
    some (some (Action.Shift 7), some 5, 8, 7) := by
  decide

/-- Claim C6 (evaluation of the code at the failing input): on the trivial
grammar S to a the automaton has 3 states and a non-error cell (shift 2 on
a in state 0), yet the emitted `yybase` is the empty list - the source
declares it and never assigns it - so there are no per-state base offsets
with which yytable and yycheck could reproduce any dense cell. -/
theorem c6_no_base_offsets_emitted :
    (run 100 gTrivial).toOption.map (fun r =>
      (r.yybase, r.states.length, mapGet (r.actions.getD 0 []) "a")) =
    some ([], 3, some (Action.Shift 2)) := by
  decide

/-- Claim C7 (evaluation of the code at the failing input): on the single
production grammar S to a b (production 1; production 0 is the synthesized
start production with RHS of length 1), the source emits yyr1 = [0] and
yyr2 = [2]: the arrays have one entry per user production starting at index
0, so yyr2[0] is the RHS length 2 of production 1, not the RHS length 1 of
production 0, and yyr1 records the position of the LHS in the map iteration
rather than a symbol id. -/
theorem c7_yyr_arrays_skip_production_zero :
    (run 100 g7).toOption.map (fun r => (r.yyr1, r.yyr2)) = some ([0], [2]) := by
  decide

/-- Claim C8 (evaluation of the code at the failing input): the grammar with
the single production S to A interns A as a non-terminal although A has no
production.  The run completes without any error - loading raises nothing,
and state 0 is registered as the two-item set in which the A item was left
unexpanded because `close_items` silently skips a non-terminal absent from
the rules map. -/
theorem c8_unreachable_non_terminal_accepted :
    (run 100 g8).toOption.map (fun r =>
      (r.states.length,
       statesGet r.states [⟨"\x27", ["S"], 0, "$", 0⟩, ⟨"S", ["A"], 0, "$", 1⟩])) =
    some (3, some 0) := by
  decide

/-- Claim C9: CLOSURE is idempotent.  Whenever `close_items` terminates on
an item set I with result J (for any fuel; the Rust loop always terminates),
running `close_items` on J changes nothing: every fuel of at least the size
of J (the second run pops each item once and inserts nothing) returns J
itself.  In particular CLOSURE(CLOSURE(I)) = CLOSURE(I). -/
theorem c9_close_items_idempotent (symbols : Symbols) (grammar : Grammar)
    (fuel f2 : Nat) (I J : List Item)
    (h1 : close_items fuel I symbols grammar = some J) (h2 : J.length ≤ f2) :
    close_items f2 J symbols grammar = some J := by
  have hclosed : IsClosedItems symbols grammar J := by
    refine closeLoop_closed symbols grammar fuel I I.reverse J ?_ h1
    intro i hi
    exact Or.inl (List.mem_reverse.2 hi)
  have hfix := closeLoop_fixpoint symbols grammar J hclosed J.reverse f2
    (fun x hx => List.mem_reverse.1 hx) (by simpa using h2)
  simpa [close_items] using hfix

/-- Witness for C9: over the loaded trivial grammar, the closure of the
start item set is `wJ`, and re-closing `wJ` returns `wJ`. -/
theorem c9_witness : close_items 10 wJ wSymbols wGrammar = some wJ :=
  c9_close_items_idempotent wSymbols wGrammar 10 10 wI wJ (by decide) (by decide)

theorem countCases_no_letters (l : List Char)
    (h : ∀ c ∈ l, c.isUpper = false ∧ c.isLower = false) :
    countCases l = (0, 0) := by
  induction l with
  | nil => rfl
  | cons ch rest ih =>
    obtain ⟨hu, hl⟩ := h ch (by simp)
    have ih' := ih fun c hc => h c (by simp [hc])
    by_cases hch : ch = '_' <;> simp [countCases, ih', hu, hl, hch]

/-- Claim C10: a symbol name with no uppercase and no lowercase characters
(for example all underscores or digits) leaves both counters of
`get_symbol_type` at zero, so diff equals uppercase and the classifier
returns NonTerminal - the name is accepted as a non-terminal, not rejected
as ambiguous. -/
theorem c10_letterless_names_are_non_terminal (s : String)
    (h : ∀ c ∈ s.data, c.isUpper = false ∧ c.isLower = false) :
    get_symbol_type s = SymbolType.NonTerminal := by
  have hc := countCases_no_letters s.data h
  simp [get_symbol_type, hc]

/-- Witness for C10: the name made of an underscore and a digit is
classified NonTerminal. -/
theorem c10_witness : get_symbol_type "_0" = SymbolType.NonTerminal :=
  c10_letterless_names_are_non_terminal "_0" (by decide)

end Lrgen
